import Mathlib

/-!
Verification of the chat/generation orchestration layer of `server.py`
(text-generation-webui).  Strings are embedded as `List Char`; each Python
string primitive used by the source is modelled by an executable Lean
function, and each source function under scrutiny is translated on top of
those primitives.  The external collaborators (tokenizer, model, extension
pipeline) are parameters of the definitions that call them.
-/

/-- Strings of the embedded program: Python `str` as a list of characters. -/
abbrev Str := List Char

/-- Conversion from a Lean string literal to the embedded representation. -/
def cl (s : String) : Str := s.data

/-- Python whitespace test (`str.strip`/`str.split` default classes). -/
def isWS (c : Char) : Bool := c.isWhitespace

/-- Python `str.lstrip()` (whitespace). -/
def stripL (l : Str) : Str := l.dropWhile isWS

/-- Python `str.rstrip()` (whitespace). -/
def stripR (l : Str) : Str := (l.reverse.dropWhile isWS).reverse

/-- Python `str.strip()` (whitespace at both ends). -/
def pyStrip (l : Str) : Str := stripR (stripL l)

/-- Python `str.rstrip(',')`: remove trailing commas. -/
def rstripComma (l : Str) : Str := (l.reverse.dropWhile (· = ',')).reverse

/-- Python `a.startswith(pat)` / list-prefix test. -/
def lstarts : Str → Str → Bool
  | [], _ => true
  | _ :: _, [] => false
  | p :: ps, c :: cs => p = c && lstarts ps cs

/-- Python `s.split(sep)` for a one-character separator (no maxsplit):
`''.split(sep) = ['']`, and every occurrence of the separator cuts. -/
def pySplit (sep : Char) : Str → List Str
  | [] => [[]]
  | c :: rest =>
    if c = sep then [] :: pySplit sep rest
    else (pySplit sep rest).modifyHead (c :: ·)

/-- Python `str.splitlines()` restricted to `'\n'` boundaries: like
`pySplit '\n'` but without a trailing empty line. -/
def splitLines (l : Str) : List Str :=
  let p := pySplit '\n' l
  if p.getLast? = some [] then p.dropLast else p

/-- Helper for `pyFind`: first index `≥ i` at which `pat` occurs. -/
def pyFindAux (pat : Str) : Str → Nat → Option Nat
  | [], i => if pat = [] then some i else none
  | c :: rest, i =>
    if lstarts pat (c :: rest) then some i else pyFindAux pat rest (i + 1)

/-- Python `s.find(pat)`, with `none` standing for `-1`. -/
def pyFind (s pat : Str) : Option Nat := pyFindAux pat s 0

/-- Python `pat in s` (substring containment). -/
def pyContains (s pat : Str) : Bool := (pyFind s pat).isSome

/-- Python `s[-j:]` for `j ≥ 1`: the last `j` characters (the whole string
when `j` exceeds its length). -/
def pyTakeLast (j : Nat) (l : Str) : Str := l.drop (l.length - j)

/-- Python list indexing `l[k]` for a possibly negative index `k`, as a
partial operation (`none` = `IndexError`). -/
def pyListIndex (l : List Nat) (k : Int) : Option Nat :=
  if 0 ≤ k then l.get? k.toNat
  else if k.natAbs ≤ l.length then l.get? (l.length - k.natAbs)
  else none

/-- Embedding of `re.sub(r"\n{3,}", "\n\n", s)`: every maximal run of three
or more newlines is replaced by exactly two.  `cnt` counts the newlines
already emitted in the current run; further newlines of a run past the
second are dropped. -/
def capNl (cnt : Nat) : Str → Str
  | [] => []
  | c :: rest =>
    if c = '\n' then
      if cnt < 2 then '\n' :: capNl (cnt + 1) rest else capNl cnt rest
    else c :: capNl 0 rest

/-- Python `s.replace('\n', '\n\n')` (step one of `clean_chat_message`). -/
def doubleNl (l : Str) : Str :=
  l.flatMap (fun c => if c = '\n' then ['\n', '\n'] else [c])

/-- `clean_chat_message` from server.py: double the newlines, collapse runs
of three or more newlines to two, and strip outer whitespace. -/
def clean_chat_message (text : Str) : Str :=
  pyStrip (capNl 0 (doubleNl text))

/-- The stop-at-newline branch of `extract_message_from_reply`
(`reply.split('\n')[0].strip()`): truncate at the first newline and trim. -/
def stopAtNewlineStep (reply : Str) : Str :=
  pyStrip ((pySplit '\n' reply).headD [])

/-- One alternative of the regex `(^|\n){pat}:`: the first pattern in
`pats` such that `pat ++ ":"` starts the text, together with the length of
the matched label (regex alternation is leftmost-first). -/
def tryPats (pats : List Str) (l : Str) : Option Nat :=
  match pats with
  | [] => none
  | pat :: ps => if lstarts (pat ++ [':']) l then some (pat.length + 1) else tryPats ps l

/-- Embedding of `re.finditer(f"(^|\n){pats}:", s)` match-start positions
(positions are relative to the scanned text; the `^` branch is available
only at the very start, `atStart`).  After a match the scan resumes past
it, as `finditer` does.  `fuel` is structural; `s.length` suffices because
every step consumes at least one character. -/
def findIterAux (pats : List Str) : Nat → Bool → Str → List Nat
  | 0, _, _ => []
  | _ + 1, _, [] => []
  | fuel + 1, atStart, c :: rest =>
    match (if atStart then tryPats pats (c :: rest) else none) with
    | some k => 0 :: (findIterAux pats fuel false ((c :: rest).drop k)).map (· + k)
    | none =>
      if c = '\n' then
        match tryPats pats rest with
        | some k => 0 :: (findIterAux pats fuel false (rest.drop k)).map (· + (1 + k))
        | none => (findIterAux pats fuel false rest).map (· + 1)
      else (findIterAux pats fuel false rest).map (· + 1)

/-- Start positions of `(^|\n){name}:` matches (`[m.start() for m in
re.finditer(...)]` in `extract_message_from_reply`/`tokenize_dialogue`). -/
def findIter (pats : List Str) (s : Str) : List Nat :=
  findIterAux pats s.length true s

/-- Lines 459-466 of server.py: locate the `len(previous_idx)-1`-th
occurrence of `(^|\n){current}:` in the full transcript (Python indexing,
so `-1` when the prompt has no occurrence) and slice the transcript after
the speaker label; `none` is the `IndexError` of an out-of-bounds lookup.
`ext` stands for `apply_extensions(f"{current}:", "bot_prefix")`. -/
def rawCandidate (ext : Str → Str) (question reply current : Str)
    (extensions : Bool) : Option Str :=
  let previous_idx := findIter [current] question
  let idxs := findIter [current] reply
  match pyListIndex idxs ((previous_idx.length : Int) - 1) with
  | none => none
  | some idx =>
    some (reply.drop (idx + 1 +
      (if extensions then (ext (current ++ [':'])).length else current.length + 1)))

/-- `extract_message_from_reply` from server.py.  Returns the extracted
reply together with the `next_character_found` and `substring_found`
flags; `none` models the uncaught `IndexError` of the occurrence lookup. -/
def extract_message_from_reply (ext : Str → Str) (question reply current other : Str)
    (check : Bool) (extensions : Bool) : Option (Str × Bool × Bool) :=
  match rawCandidate ext question reply current extensions with
  | none => none
  | some cand =>
    if check then some (stopAtNewlineStep cand, false, false)
    else
      let tmp := '\n' :: other ++ [':']
      let found := pyFind cand tmp
      let cand2 := match found with
        | some i => cand.take i
        | none => cand
      let nextFound := found.isSome
      let cand3 := clean_chat_message cand2
      let sub := (List.range' 1 (tmp.length - 1)).any
        (fun j => pyTakeLast j cand3 == tmp.take j)
      some (cand3, nextFound, sub)

/-- A conversation turn: the `(user_text, bot_text)` pair. -/
abbrev Turn := Str × Str

/-- The begin-chat sentinel `'<|BEGIN-VISIBLE-CHAT|>'`. -/
def sentinelS : Str := cl "<|BEGIN-VISIBLE-CHAT|>"

/-- A `"{name}: {payload}\n"` prompt row. -/
def mkRow (name payload : Str) : Str := name ++ ':' :: ' ' :: payload ++ ['\n']

/-- `len(encode(s, tokens)[0])`: the tokenized length of `s` under the
external tokenizer `tok`, truncated by `encode`'s
`max_length=2048-tokens`. -/
def encLen (tok : Str → Nat) (s : Str) (tokens : Nat) : Nat :=
  min (tok s) (2048 - tokens)

/-- The history-inclusion loop of `generate_chat_prompt` (lines 428-438):
walk the reversed internal history, prepending each turn's rows while the
tokenized length of the joined rows stays below `2048 - tokens`, breaking
once the optional `history_size` turn-row count is reached.  A turn whose
user side is the sentinel contributes only its bot row. -/
def historyRowsLoop (tok : Str → Nat) (tokens : Nat) (name1 name2 head : Str)
    (hs : Nat) : List Turn → Nat → List Str → List Str
  | [], _, acc => acc
  | (u, b) :: rest, count, acc =>
    if encLen tok (head :: acc).flatten tokens < 2048 - tokens then
      let pair : List Str :=
        if u = sentinelS then [mkRow name2 (pyStrip b)]
        else [mkRow name1 (pyStrip u), mkRow name2 (pyStrip b)]
      let count' := count + pair.length
      if hs ≠ 0 ∧ hs ≤ count' then pair ++ acc
      else historyRowsLoop tok tokens name1 name2 head hs rest count' (pair ++ acc)
    else acc

/-- The final trimming loop of `generate_chat_prompt` (lines 448-450):
while more than `limit` rows remain and the joined rows reach the budget,
drop the two oldest history rows (`rows.pop(1)` twice). -/
def trimRows (tok : Str → Nat) (tokens limit : Nat) : Nat → List Str → List Str
  | 0, rows => rows
  | fuel + 1, rows =>
    if limit < rows.length ∧ 2048 - tokens ≤ encLen tok rows.flatten tokens then
      trimRows tok tokens limit fuel ((rows.eraseIdx 1).eraseIdx 1)
    else rows

/-- The row list assembled by `generate_chat_prompt` just before joining:
context header, as much history as fits, then the pending user row and the
bot prefix (or just `"{name1}:"` when impersonating), trimmed to budget.
`tok` is the external tokenizer, `ext` the bot-prefix extension hook. -/
def generate_chat_rows (tok : Str → Nat) (ext : Str → Str) (text : Str)
    (tokens : Nat) (name1 name2 context : Str) (internalHist : List Turn)
    (history_size : Nat) (impersonate : Bool) : List Str :=
  let text' := clean_chat_message text
  let head := pyStrip context ++ ['\n']
  let histRows := historyRowsLoop tok tokens name1 name2 head history_size
    internalHist.reverse 0 []
  let rows1 := if impersonate then (head :: histRows) ++ [name1 ++ [':']]
    else (head :: histRows) ++ [mkRow name1 text', ext (name2 ++ [':'])]
  let limit := if impersonate then 2 else 3
  trimRows tok tokens limit rows1.length rows1

/-- `generate_chat_prompt` from server.py: the joined prompt string. -/
def generate_chat_prompt (tok : Str → Nat) (ext : Str → Str) (text : Str)
    (tokens : Nat) (name1 name2 context : Str) (internalHist : List Turn)
    (history_size : Nat) (impersonate : Bool) : Str :=
  (generate_chat_rows tok ext text tokens name1 name2 context internalHist
    history_size impersonate).flatten

/-- The incremental branch of `generate_reply` (lines 308-319): repeatedly
call `model.generate(input_ids, ..., max_new_tokens=8)` — modelled by the
external `step`, always invoked with increment 8 — collecting each output,
feeding it back as the next input, and stopping after an output whose last
token is the end token `n`.  The fuel is the loop bound `tokens//8+1`. -/
def streamOutputs (step : List Nat → Nat → List Nat) (n : Nat) :
    Nat → List Nat → List (List Nat)
  | 0, _ => []
  | fuel + 1, ids =>
    let output := step ids 8
    output :: (if output.getLast? = some n then [] else streamOutputs step n fuel output)

/-- The sequence of generation-call outputs produced by `generate_reply`'s
streaming loop for a requested budget of `tokens` new tokens. -/
def generate_reply_stream (step : List Nat → Nat → List Nat) (n tokens : Nat)
    (input_ids : List Nat) : List (List Nat) :=
  streamOutputs step n (tokens / 8 + 1) input_ids

/-- Fuel-based core of Python `s.replace(pat, rep)` (leftmost,
non-overlapping; the scan resumes after each replacement). -/
def replaceAllF (pat rep : Str) : Nat → Str → Str
  | 0, l => l
  | _ + 1, [] => []
  | fuel + 1, c :: rest =>
    if pat ≠ [] ∧ lstarts pat (c :: rest) then
      rep ++ replaceAllF pat rep fuel ((c :: rest).drop pat.length)
    else c :: replaceAllF pat rep fuel rest

/-- Python `s.replace(pat, rep)` / `re.sub` for a literal pattern. -/
def replaceAll (pat rep l : Str) : Str := replaceAllF pat rep l.length l

/-- Fuel-based scan for `re.sub('(\n|^)ALT', '\\1REP', s)` after the start
of the string: each `alts` entry is a `(label, replacement)` pair; a label
found right after a newline is replaced, keeping the newline. -/
def subLineAux (alts : List (Str × Str)) : Nat → Str → Str
  | 0, l => l
  | _ + 1, [] => []
  | fuel + 1, c :: rest =>
    if c = '\n' then
      match alts.find? (fun a => lstarts a.1 rest) with
      | some a => '\n' :: (a.2 ++ subLineAux alts fuel (rest.drop a.1.length))
      | none => '\n' :: subLineAux alts fuel rest
    else c :: subLineAux alts fuel rest

/-- `re.sub('(\n|^)ALT', '\\1REP', s)` for literal alternatives: the `^`
case at position 0, then the newline-anchored scan. -/
def subLineStart (alts : List (Str × Str)) (l : Str) : Str :=
  match alts.find? (fun a => lstarts a.1 l) with
  | some a => a.2 ++ subLineAux alts l.length (l.drop a.1.length)
  | none => subLineAux alts l.length l

/-- The four `re.sub` rewrites at the top of `tokenize_dialogue` (lines
585-588): delete `<START>`/`<start>`, rewrite line-initial `[Aa]non:` to
`You:` and line-initial `[CHARACTER]:` to `{name2}:`. -/
def applyDialogueSubs (name2 : Str) (dialogue : Str) : Str :=
  let d1 := replaceAll (cl "<START>") [] dialogue
  let d2 := replaceAll (cl "<start>") [] d1
  let d3 := subLineStart [(cl "Anon:", cl "You:"), (cl "anon:", cl "You:")] d2
  subLineStart [(cl "[CHARACTER]:", name2 ++ [':'])] d3

/-- The message slices of `tokenize_dialogue` (lines 593-596): stripped
`dialogue[idx[i]:idx[i+1]]` pieces, the last one running to the end. -/
def slicesAux (s : Str) : Nat → List Nat → List Str
  | a, [] => [pyStrip (s.drop a)]
  | a, b :: rest => pyStrip ((s.drop a).take (b - a)) :: slicesAux s b rest

/-- All message slices for a given occurrence-index list. -/
def pymessages (s : Str) (idx : List Nat) : List Str :=
  match idx with
  | [] => []
  | a :: rest => slicesAux s a rest

/-- The entry-pairing fold of `tokenize_dialogue` (lines 598-606): messages
starting with `{name1}:` fill the user slot, messages starting with
`{name2}:` fill the bot slot and flush the entry unless both sides are
empty; other messages are skipped. -/
def pairUp (n1 n2 : Str) : Turn → List Str → List Turn
  | _, [] => []
  | e, m :: rest =>
    if lstarts (n1 ++ [':']) m then
      pairUp n1 n2 (pyStrip (m.drop (n1.length + 1)), e.2) rest
    else if lstarts (n2 ++ [':']) m then
      let e' : Turn := (e.1, pyStrip (m.drop (n2.length + 1)))
      if e'.1 = [] ∧ e'.2 = [] then pairUp n1 n2 ([], []) rest
      else e' :: pairUp n1 n2 ([], []) rest
    else pairUp n1 n2 e rest

/-- `tokenize_dialogue` from server.py: apply the rewrites, locate the
speaker-label boundaries, slice the messages and pair them into turns. -/
def tokenize_dialogue (name1 name2 dialogue : Str) : List Turn :=
  let d := applyDialogueSubs name2 dialogue
  let idx := findIter [name1, name2] d
  if idx = [] then []
  else pairUp name1 name2 ([], []) (pymessages d idx)

/-- The transcript `"{name1}: {u}\n{name2}: {b}\n"` per turn, the
reconstruction direction of the tokenize-dialogue round trip. -/
def buildTranscript (n1 n2 : Str) (ts : List Turn) : Str :=
  (ts.map (fun t => n1 ++ ':' :: ' ' :: t.1 ++ '\n' :: n2 ++ ':' :: ' ' :: t.2 ++ ['\n'])).flatten

/-- The two parallel histories of the conversation state
(`history = {'internal': [...], 'visible': [...]}`). -/
structure ChatState where
  internal : List Turn
  visible : List Turn
deriving DecidableEq, Repr

/-- The history-parity predicate of the spec. -/
def parity (st : ChatState) : Prop := st.internal.length = st.visible.length

/-- Lines 490-491 of `chatbot_wrapper`: push the placeholder turn on both
histories. -/
def appendPlaceholder (st : ChatState) : ChatState :=
  ⟨st.internal ++ [([], [])], st.visible ++ [([], [])]⟩

/-- Lines 495-496 of `chatbot_wrapper`: overwrite the most recent turn on
both histories with the streamed values (`IndexError`, i.e. `none`, on an
empty history). -/
def updateLastTurn (st : ChatState) (ti tv : Turn) : Option ChatState :=
  if st.internal = [] ∨ st.visible = [] then none
  else some ⟨st.internal.dropLast ++ [ti], st.visible.dropLast ++ [tv]⟩

/-- Lines 519-520 of `regenerate_wrapper`: pop the last turn from both
histories (`none` when one of them is empty). -/
def popLastTurn (st : ChatState) : Option ChatState :=
  if st.visible = [] ∨ st.internal = [] then none
  else some ⟨st.internal.dropLast, st.visible.dropLast⟩

/-- `remove_last_message` from server.py (lines 529-538): when the most
recent internal turn's user side is the sentinel, leave both histories
unchanged and report an empty pair; otherwise pop the final turn from both
and report the popped visible pair.  `none` models the `IndexError` on an
empty history. -/
def remove_last_message (st : ChatState) : Option (ChatState × Turn) :=
  match st.internal.getLast? with
  | none => none
  | some t =>
    if t.1 = sentinelS then some (st, ([], []))
    else
      match st.visible.getLast? with
      | none => none
      | some v => some (⟨st.internal.dropLast, st.visible.dropLast⟩, v)

/-- `replace_last_reply` (lines 546-552): when the visible history is
nonempty, replace the bot side of the last visible turn by `text` and of
the last internal turn by the input-transformed text. -/
def replace_last_reply (st : ChatState) (text extText : Str) : Option ChatState :=
  if st.visible = [] then some st
  else if st.internal = [] then none
  else
    some ⟨st.internal.dropLast ++ [(((st.internal.getLast?).getD ([], [])).1, extText)],
          st.visible.dropLast ++ [(((st.visible.getLast?).getD ([], [])).1, text)]⟩

/-- `clear_chat_log` (lines 562-576): with a character, truncate the
internal history at the first turn whose user side contains the sentinel
and reset the visible history to that turn's bot text (no change when no
such turn exists); with character `'None'`, empty both histories. -/
def clear_chat_log (hasCharacter : Bool) (st : ChatState) : ChatState :=
  if hasCharacter then
    match st.internal.findIdx? (fun t => pyContains t.1 sentinelS) with
    | some i =>
      ⟨st.internal.take (i + 1), [([], (((st.internal.get? i).getD ([], [])).2))]⟩
    | none => st
  else ⟨[], []⟩

/-- The history effect of `load_character` (lines 655-673) for a chosen
character: internal history is the tokenized example dialogue plus the
sentinel-anchored greeting turn; visible history is just the greeting
(extension-transformed when the character supplies one, the default
`"Hello there!"` otherwise).  `gr = none` models an absent or
whitespace-only `char_greeting`. -/
def load_character_history (extOut : Str → Str) (name1 name2 ex : Str)
    (gr : Option Str) : ChatState :=
  let internal0 := tokenize_dialogue name1 name2 ex
  match gr with
  | some g =>
    ⟨internal0 ++ [(sentinelS, g)], [([], extOut g)]⟩
  | none =>
    ⟨internal0 ++ [(sentinelS, cl "Hello there!")], [([], cl "Hello there!")]⟩

/-- The raw-dialogue fallback of `load_history` (lines 648-650): both
histories become the tokenized pasted transcript. -/
def load_pasted_history (name1 name2 file : Str) : ChatState :=
  let h := tokenize_dialogue name1 name2 file
  ⟨h, h⟩

/-- Values of the decoding-configuration dictionary.  `eval(...)` of the
preset file's right-hand sides and the Python defaults are opaque here;
each value is kept as its source text. -/
abbrev PVal := Str

/-- The `generate_params` defaults of `load_preset_values` (lines
174-187), keys in source order with their Python default expressions. -/
def presetDefaults : List (Str × PVal) :=
  [(cl "do_sample", cl "True"), (cl "temperature", cl "1"), (cl "top_p", cl "1"),
   (cl "typical_p", cl "1"), (cl "repetition_penalty", cl "1"), (cl "top_k", cl "50"),
   (cl "num_beams", cl "1"), (cl "penalty_alpha", cl "0"), (cl "min_length", cl "0"),
   (cl "length_penalty", cl "1"), (cl "no_repeat_ngram_size", cl "0"),
   (cl "early_stopping", cl "False")]

/-- The keys of the recognized Decoding Configuration fields. -/
def knownPresetKeys : List Str := presetDefaults.map (·.1)

/-- Python dict assignment `d[k] = v` on an association list (insertion
order preserved, the value replaced in place when the key is present). -/
def dictSet (d : List (Str × PVal)) (k : Str) (v : PVal) : List (Str × PVal) :=
  match d with
  | [] => [(k, v)]
  | e :: rest => if e.1 = k then (k, v) :: rest else e :: dictSet rest k v

/-- Python dict lookup `d[k]` on an association list (`none` = `KeyError`). -/
def dictFind (d : List (Str × PVal)) (k : Str) : Option PVal :=
  match d with
  | [] => none
  | e :: rest => if e.1 = k then some e.2 else dictFind rest k

/-- One line of the preset loop (lines 190-193):
`i = line.rstrip(',').strip().split('=')`, assigning
`generate_params[i[0].strip()] = eval(i[1].strip())` when the split has
exactly two parts and the key is not `'tokens'`. -/
def presetLineStep (d : List (Str × PVal)) (line : Str) : List (Str × PVal) :=
  let i := pySplit '=' (pyStrip (rstripComma line))
  if i.length = 2 ∧ pyStrip (i.headD []) ≠ cl "tokens" then
    dictSet d (pyStrip (i.headD [])) (pyStrip ((i.drop 1).headD []))
  else d

/-- `load_preset_values` from server.py (dictionary form): fold the preset
file's lines over the defaults, then clamp the temperature
(`min(1.99, ...)` — the numeric clamp on the evaluated value is the
external `clampTemp`). -/
def load_preset_values (clampTemp : PVal → PVal) (preset : Str) : List (Str × PVal) :=
  let d := (splitLines preset).foldl presetLineStep presetDefaults
  dictSet d (cl "temperature") (clampTemp ((dictFind d (cl "temperature")).getD (cl "1")))

/-- Well-formedness of a speaker name for the round-trip statement:
non-empty, and free of whitespace and colons (so the `(^|\n){name}:`
markers are unambiguous). -/
abbrev goodName (n : Str) : Prop := n ≠ [] ∧ ∀ c ∈ n, isWS c = false ∧ c ≠ ':'

/-- One transcript row `"{name1}: {u}\n{name2}: {b}\n"` of the
reconstruction direction (the loop body of `buildTranscript`). -/
def rowT (n1 n2 : Str) (t : Turn) : Str :=
  n1 ++ ':' :: ' ' :: t.1 ++ '\n' :: n2 ++ ':' :: ' ' :: t.2 ++ ['\n']

/-- Expected `finditer` match positions for `'\n' ++ buildTranscript ts`:
position 0 (the leading newline before `name1`), the mid-row newline
before `name2`, and recursively the rest shifted by the row length. -/
def exIdx (n1 n2 : Str) : List Turn → List Nat
  | [] => []
  | t :: ts =>
    0 :: (n1.length + t.1.length + 3) ::
      (exIdx n1 n2 ts).map
        (· + (n1.length + t.1.length + n2.length + t.2.length + 6))

/-- Expected stripped message slices for a built transcript: alternating
`"{name1}: {u}"` / `"{name2}: {b}"`, stripped. -/
def msgsOf (n1 n2 : Str) : List Turn → List Str
  | [] => []
  | t :: ts =>
    pyStrip (n1 ++ ':' :: ' ' :: t.1) :: pyStrip (n2 ++ ':' :: ' ' :: t.2) ::
      msgsOf n1 n2 ts

/-- Whether a preset line assigns key `k`: its comma-rstripped, trimmed
text splits on `'='` into exactly two parts whose trimmed key is `k`, and
`k` is not the ignored `'tokens'`. -/
def presetLineSets (line k : Str) : Bool :=
  let i := pySplit '=' (pyStrip (rstripComma line))
  i.length = 2 && pyStrip (i.headD []) == k && k != cl "tokens"

/-! ### Library: facts about the embedded Python string primitives -/

lemma stripL_cons_of_not_ws {c : Char} (l : Str) (h : isWS c = false) :
    stripL (c :: l) = c :: l := by
  simp [stripL, List.dropWhile_cons, h]

lemma stripL_cons_of_ws {c : Char} (l : Str) (h : isWS c = true) :
    stripL (c :: l) = stripL l := by
  simp [stripL, List.dropWhile_cons, h]

lemma stripR_eq_nil_iff {l : Str} : stripR l = [] ↔ ∀ x ∈ l, isWS x := by
  rw [stripR, List.reverse_eq_nil_iff, List.dropWhile_eq_nil_iff]
  simp

lemma stripL_eq_nil_iff {l : Str} : stripL l = [] ↔ ∀ x ∈ l, isWS x := by
  rw [stripL, List.dropWhile_eq_nil_iff]

lemma stripR_cons_of_not_ws {c : Char} (l : Str) (h : isWS c = false) :
    stripR (c :: l) = c :: stripR l := by
  unfold stripR
  rw [List.reverse_cons, List.dropWhile_append]
  by_cases hd : (List.dropWhile isWS l.reverse).isEmpty
  · rw [if_pos hd]
    have hnil : List.dropWhile isWS l.reverse = [] := by
      simpa [List.isEmpty_iff] using hd
    simp [List.dropWhile_cons, h, hnil]
  · rw [if_neg hd]
    simp

lemma stripR_cons_of_ws {c : Char} (l : Str) (h : isWS c = true) :
    stripR (c :: l) = if stripR l = [] then [] else c :: stripR l := by
  unfold stripR
  rw [List.reverse_cons, List.dropWhile_append]
  by_cases hd : (List.dropWhile isWS l.reverse).isEmpty
  · have hnil : List.dropWhile isWS l.reverse = [] := by
      simpa [List.isEmpty_iff] using hd
    rw [if_pos hd, if_pos (by simp [hnil])]
    simp [List.dropWhile_cons, h]
  · have hnil : List.dropWhile isWS l.reverse ≠ [] := by
      simpa [List.isEmpty_iff] using hd
    rw [if_neg hd, if_neg (by simp [hnil])]
    simp

lemma stripL_idem (l : Str) : stripL (stripL l) = stripL l :=
  List.dropWhile_idempotent isWS l

lemma stripR_idem (l : Str) : stripR (stripR l) = stripR l := by
  unfold stripR
  rw [List.reverse_reverse]
  exact congrArg _ (List.dropWhile_idempotent isWS l.reverse)

lemma strip_comm (l : Str) : stripL (stripR l) = stripR (stripL l) := by
  induction l with
  | nil => rfl
  | cons c t ih =>
    by_cases hws : isWS c
    · rw [stripL_cons_of_ws t hws, stripR_cons_of_ws t hws]
      by_cases hnil : stripR t = []
      · rw [if_pos hnil]
        have : ∀ x ∈ t, isWS x := stripR_eq_nil_iff.mp hnil
        have hLnil : stripL t = [] := stripL_eq_nil_iff.mpr this
        rw [hLnil]
        simp [stripL, stripR]
      · rw [if_neg hnil, stripL_cons_of_ws _ hws, ih]
    · have hws' : isWS c = false := by simpa using hws
      rw [stripR_cons_of_not_ws t hws', stripL_cons_of_not_ws _ hws',
        stripL_cons_of_not_ws t hws', stripR_cons_of_not_ws t hws']

lemma pyStrip_idem (l : Str) : pyStrip (pyStrip l) = pyStrip l := by
  unfold pyStrip
  rw [strip_comm (stripL l), stripL_idem, stripR_idem]

lemma mem_stripL {x : Char} {l : Str} (h : x ∈ stripL l) : x ∈ l :=
  (List.dropWhile_sublist isWS).mem h

lemma mem_stripR {x : Char} {l : Str} (h : x ∈ stripR l) : x ∈ l := by
  rw [stripR, List.mem_reverse] at h
  exact List.mem_reverse.mp ((List.dropWhile_sublist isWS).mem h)

lemma mem_pyStrip {x : Char} {l : Str} (h : x ∈ pyStrip l) : x ∈ l :=
  mem_stripL (mem_stripR h)

lemma pySplit_ne_nil (c : Char) (l : Str) : pySplit c l ≠ [] := by
  induction l with
  | nil => simp [pySplit]
  | cons d rest ih =>
    rw [pySplit]
    by_cases hd : d = c
    · simp [hd]
    · rw [if_neg hd]
      cases hsp : pySplit c rest with
      | nil => exact absurd hsp ih
      | cons a t => simp [List.modifyHead]

lemma pySplit_headD (c : Char) (l : Str) :
    (pySplit c l).headD [] = l.takeWhile (· ≠ c) := by
  induction l with
  | nil => rfl
  | cons d rest ih =>
    rw [pySplit]
    by_cases hd : d = c
    · simp [hd, List.takeWhile_cons]
    · rw [if_neg hd]
      cases hsp : pySplit c rest with
      | nil => exact absurd hsp (pySplit_ne_nil c rest)
      | cons a t =>
        rw [hsp] at ih
        simp only [List.headD_cons] at ih
        simp [List.modifyHead, List.takeWhile_cons, hd, ih]

lemma stopAtNewlineStep_eq (s : Str) :
    stopAtNewlineStep s = pyStrip (s.takeWhile (· ≠ '\n')) := by
  rw [stopAtNewlineStep, pySplit_headD]

lemma ne_nl_of_mem_takeWhile {x : Char} :
    ∀ {s : Str}, x ∈ s.takeWhile (· ≠ '\n') → (x ≠ '\n') = True
  | [], h => by simp at h
  | c :: rest, h => by
    rw [List.takeWhile_cons] at h
    by_cases hc : c = '\n'
    · simp [hc] at h
    · rw [if_pos (by simp [hc])] at h
      rcases List.mem_cons.mp h with h' | h'
      · simp [h', hc]
      · exact ne_nl_of_mem_takeWhile h'

lemma takeWhile_pyStrip_no_nl (s : Str) :
    (pyStrip (s.takeWhile (· ≠ '\n'))).takeWhile (· ≠ '\n') =
      pyStrip (s.takeWhile (· ≠ '\n')) := by
  apply List.takeWhile_eq_self_iff.mpr
  intro x hx
  have hx' := ne_nl_of_mem_takeWhile (mem_pyStrip hx)
  simp [of_eq_true hx']

/-- C9: the stop-at-newline truncate-and-trim step of reply extraction
(`reply.split('\n')[0].strip()`) is idempotent: applied to a reply it has
already produced, it returns that reply unchanged. -/
theorem stop_at_newline_extraction_idempotent (s : Str) :
    stopAtNewlineStep (stopAtNewlineStep s) = stopAtNewlineStep s := by
  rw [stopAtNewlineStep_eq s, stopAtNewlineStep_eq, takeWhile_pyStrip_no_nl,
    pyStrip_idem]

/-- C5: with stop-at-newline active, reply extraction returns the raw
candidate truncated at its first newline and whitespace-trimmed, with the
next-speaker and substring flags both false (no next-speaker scan). -/
theorem extract_check_truncates (ext : Str → Str) (question reply current other : Str)
    (extensions : Bool) (cand : Str)
    (hcand : rawCandidate ext question reply current extensions = some cand) :
    extract_message_from_reply ext question reply current other true extensions =
      some (pyStrip (cand.takeWhile (· ≠ '\n')), false, false) := by
  rw [extract_message_from_reply, hcand]
  simp [stopAtNewlineStep_eq]

/-- C5 witness: the spec scenario — raw candidate
`"Sure, I can help.\nYou: thanks"`, extracted reply exactly
`"Sure, I can help."`. -/
theorem extract_check_truncates_witness :
    extract_message_from_reply id (cl "\nBot:") (cl "\nBot:Sure, I can help.\nYou: thanks")
      (cl "Bot") (cl "You") true false = some (cl "Sure, I can help.", false, false) := by
  have h := extract_check_truncates id (cl "\nBot:")
    (cl "\nBot:Sure, I can help.\nYou: thanks") (cl "Bot") (cl "You") false
    (cl "Sure, I can help.\nYou: thanks") (by decide)
  rw [h]
  decide

/-- C3 (amended): the substring-found flag is computed on the
paragraph-normalized candidate: whenever the full `"\n{other}:"` marker is
absent and the *normalized* candidate's tail is a non-empty proper prefix
of `"\n{other}:"`, extraction with stop-at-newline disabled returns
`substring_found = true`. -/
theorem extract_substring_found_of_normalized_tail (ext : Str → Str)
    (question reply current other : Str) (extensions : Bool) (cand : Str)
    (hcand : rawCandidate ext question reply current extensions = some cand)
    (hfull : pyFind cand ('\n' :: other ++ [':']) = none)
    (j : Nat) (hj1 : 1 ≤ j) (hj2 : j < ('\n' :: other ++ [':']).length)
    (hmatch : pyTakeLast j (clean_chat_message cand) = ('\n' :: other ++ [':']).take j) :
    extract_message_from_reply ext question reply current other false extensions =
      some (clean_chat_message cand, false, true) := by
  rw [extract_message_from_reply, hcand]
  simp only [Bool.false_eq_true, if_false, hfull, Option.isSome_none]
  have hsub : (List.range' 1 (('\n' :: other ++ [':']).length - 1)).any
      (fun j => pyTakeLast j (clean_chat_message cand) == ('\n' :: other ++ [':']).take j)
      = true := by
    apply List.any_eq_true.mpr
    refine ⟨j, ?_, ?_⟩
    · rw [List.mem_range']
      have : 2 ≤ ('\n' :: other ++ [':']).length := by simp
      exact ⟨j - 1, by omega, by omega⟩
    · exact beq_iff_eq.mpr hmatch
  rw [hsub]

/-- C3 witness: the spec scenario — candidate tail `"...great!\nYo"` with
`other = "You"`; the normalized candidate ends in `"\nYo"` and the flag is
raised. -/
theorem extract_substring_found_witness :
    extract_message_from_reply id (cl "\nBot:") (cl "\nBot: great!\nYo") (cl "Bot")
      (cl "You") false false = some (clean_chat_message (cl " great!\nYo"), false, true) :=
  extract_substring_found_of_normalized_tail id (cl "\nBot:") (cl "\nBot: great!\nYo")
    (cl "Bot") (cl "You") false (cl " great!\nYo") (by decide) (by decide)
    3 (by decide) (by decide) (by decide)

/-- C3 counterexample: a candidate whose tail *before* normalization is the
non-empty proper prefix `"\n"` of `"\nYou:"` (candidate `" Hi\n"`), yet
extraction returns `substring_found = false` — normalization strips the
trailing newline before the tail check, so the claim's pre-normalization
phrasing fails on the code. -/
theorem extract_substring_found_counterexample :
    rawCandidate id (cl "\nBot:") (cl "\nBot: Hi\n") (cl "Bot") false = some (cl " Hi\n") ∧
    pyTakeLast 1 (cl " Hi\n") = ('\n' :: cl "You" ++ [':']).take 1 ∧
    extract_message_from_reply id (cl "\nBot:") (cl "\nBot: Hi\n") (cl "Bot") (cl "You")
      false false = some (cl "Hi", false, false) :=
  ⟨by decide, by decide, by decide⟩

lemma streamOutputs_length (step : List Nat → Nat → List Nat) (n : Nat) :
    ∀ fuel ids, (streamOutputs step n fuel ids).length ≤ fuel := by
  intro fuel
  induction fuel with
  | zero => intro ids; simp [streamOutputs]
  | succ k ih =>
    intro ids
    rw [streamOutputs]
    by_cases hstop : (step ids 8).getLast? = some n
    · simp [hstop]
    · simp only [if_neg hstop, List.length_cons]
      exact Nat.succ_le_succ (ih _)

lemma streamOutputs_get?_length (step : List Nat → Nat → List Nat) (n : Nat)
    (h8 : ∀ l, (step l 8).length = l.length + 8) :
    ∀ fuel ids i out, (streamOutputs step n fuel ids).get? i = some out →
      out.length = ids.length + 8 * (i + 1) := by
  intro fuel
  induction fuel with
  | zero => intro ids i out h; simp [streamOutputs] at h
  | succ k ih =>
    intro ids i out h
    rw [streamOutputs] at h
    by_cases hstop : (step ids 8).getLast? = some n
    · rw [if_pos hstop] at h
      cases i with
      | zero => simp at h; rw [← h, h8]
      | succ j => simp at h
    · rw [if_neg hstop] at h
      cases i with
      | zero => simp at h; rw [← h, h8]
      | succ j =>
        rw [List.get?_cons_succ] at h
        have hrec := ih (step ids 8) j out h
        rw [hrec, h8]
        ring

lemma streamOutputs_stop (step : List Nat → Nat → List Nat) (n : Nat) :
    ∀ fuel ids i out, (streamOutputs step n fuel ids).get? i = some out →
      i + 1 < (streamOutputs step n fuel ids).length → ¬ out.getLast? = some n := by
  intro fuel
  induction fuel with
  | zero => intro ids i out h _; simp [streamOutputs] at h
  | succ k ih =>
    intro ids i out h hlen
    rw [streamOutputs] at h hlen
    by_cases hstop : (step ids 8).getLast? = some n
    · rw [if_pos hstop] at h hlen
      simp at hlen
    · rw [if_neg hstop] at h hlen
      cases i with
      | zero =>
        simp at h
        rw [← h]
        exact hstop
      | succ j =>
        rw [List.get?_cons_succ] at h
        simp only [List.length_cons] at hlen
        exact ih (step ids 8) j out h (by omega)

/-- C4: the streaming controller requests exactly 8 new tokens from every
generation call (so, when the external `generate` fills its
`max_new_tokens=8` budget, every output extends the sequence by exactly
8 tokens), performs at most `tokens // 8 + 1` generation calls, and issues
no further call after an output whose last token equals the end token. -/
theorem streaming_increments_spec (step : List Nat → Nat → List Nat) (n tokens : Nat)
    (ids : List Nat) (h8 : ∀ l, (step l 8).length = l.length + 8) :
    (generate_reply_stream step n tokens ids).length ≤ tokens / 8 + 1 ∧
    (∀ i out, (generate_reply_stream step n tokens ids).get? i = some out →
      out.length = ids.length + 8 * (i + 1)) ∧
    (∀ i out, (generate_reply_stream step n tokens ids).get? i = some out →
      i + 1 < (generate_reply_stream step n tokens ids).length →
      ¬ out.getLast? = some n) :=
  ⟨streamOutputs_length step n _ ids,
   fun i out h => streamOutputs_get?_length step n h8 _ ids i out h,
   fun i out h hl => streamOutputs_stop step n _ ids i out h hl⟩

/-- C4 witness: a concrete 8-token-per-call generator with a 20-token
budget makes at most 3 calls. -/
theorem streaming_increments_witness :
    (generate_reply_stream (fun l _ => l ++ [1, 2, 3, 4, 5, 6, 7, 0]) 0 20 []).length ≤ 3 :=
  (streaming_increments_spec (fun l _ => l ++ [1, 2, 3, 4, 5, 6, 7, 0]) 0 20 []
    (fun l => by simp)).1

/-- C10: on a state with a most recent turn, `remove_last_message` leaves
both histories unchanged and reports an empty pair when the last internal
turn's user side is the begin-chat sentinel; otherwise it pops exactly the
final turn from both histories (all earlier turns unchanged) and reports
the popped visible pair. -/
theorem remove_last_message_spec (st : ChatState) (h1 : st.internal ≠ [])
    (h2 : st.visible ≠ []) :
    if ((st.internal.getLast?).getD ([], [])).1 = sentinelS then
      remove_last_message st = some (st, ([], []))
    else
      remove_last_message st = some (⟨st.internal.dropLast, st.visible.dropLast⟩,
        (st.visible.getLast?).getD ([], [])) := by
  cases hti : st.internal.getLast? with
  | none => exact absurd (List.getLast?_eq_none_iff.mp hti) h1
  | some t =>
    cases htv : st.visible.getLast? with
    | none => exact absurd (List.getLast?_eq_none_iff.mp htv) h2
    | some v =>
      by_cases hsent : t.1 = sentinelS
      · rw [if_pos (by simp [hti, hsent])]
        simp [remove_last_message, hti, hsent]
      · rw [if_neg (by simp [hti, hsent])]
        simp [remove_last_message, hti, htv, hsent]

/-- C10 witness: a concrete non-sentinel state — the final turn is popped
and its visible pair reported. -/
theorem remove_last_message_witness :
    remove_last_message ⟨[(cl "a", cl "b")], [(cl "c", cl "d")]⟩ =
      some (⟨[], []⟩, (cl "c", cl "d")) := by
  have h := remove_last_message_spec ⟨[(cl "a", cl "b")], [(cl "c", cl "d")]⟩
    (by decide) (by decide)
  rw [if_neg (by decide)] at h
  simpa using h

lemma dictFind_dictSet (d : List (Str × PVal)) (k k' : Str) (v : PVal) :
    dictFind (dictSet d k v) k' = if k' = k then some v else dictFind d k' := by
  induction d with
  | nil =>
    simp only [dictSet, dictFind]
    by_cases hk : k' = k
    · rw [if_pos (show (k, v).1 = k' from hk.symm), if_pos hk]
    · rw [if_neg (show ¬ (k, v).1 = k' from fun h => hk h.symm), if_neg hk]
  | cons e rest ih =>
    rw [dictSet]
    by_cases he : e.1 = k
    · rw [if_pos he]
      simp only [dictFind]
      by_cases hk : k' = k
      · rw [if_pos (show (k, v).1 = k' from hk.symm), if_pos hk]
      · rw [if_neg (show ¬ (k, v).1 = k' from fun h => hk h.symm), if_neg hk,
          if_neg (fun h => hk (he.symm.trans h).symm)]
    · rw [if_neg he]
      simp only [dictFind]
      rw [ih]
      by_cases hek : e.1 = k'
      · rw [if_pos hek, if_pos hek, if_neg (fun h => he (hek.trans h))]
      · rw [if_neg hek, if_neg hek]

lemma dictFind_eq_none_of_not_mem (d : List (Str × PVal)) (k : Str)
    (h : k ∉ d.map (·.1)) : dictFind d k = none := by
  induction d with
  | nil => rfl
  | cons e rest ih =>
    rw [dictFind, if_neg, ih (fun hm => h (by simp [hm]))]
    intro he
    exact h (by simp [he])

lemma dictFind_presetLineStep (d : List (Str × PVal)) (line k : Str) :
    (dictFind (presetLineStep d line) k).isSome = true ↔
      (dictFind d k).isSome = true ∨ presetLineSets line k = true := by
  simp only [presetLineStep, presetLineSets]
  set i := pySplit '=' (pyStrip (rstripComma line)) with hi
  by_cases hcond : i.length = 2 ∧ pyStrip (i.headD []) ≠ cl "tokens"
  · rw [if_pos hcond, dictFind_dictSet]
    by_cases hk : k = pyStrip (i.headD [])
    · rw [if_pos hk]
      refine iff_of_true (by simp) (Or.inr ?_)
      rw [Bool.and_eq_true, Bool.and_eq_true]
      refine ⟨⟨by simp [hcond.1], beq_iff_eq.mpr hk.symm⟩, ?_⟩
      rw [bne_iff_ne]
      exact fun h => hcond.2 (hk ▸ h)
    · rw [if_neg hk]
      constructor
      · exact Or.inl
      · rintro (hl | hr)
        · exact hl
        · rw [Bool.and_eq_true, Bool.and_eq_true] at hr
          exact absurd (eq_of_beq hr.1.2).symm hk
  · rw [if_neg hcond]
    constructor
    · exact Or.inl
    · rintro (hl | hr)
      · exact hl
      · rw [Bool.and_eq_true, Bool.and_eq_true] at hr
        rcases Decidable.not_and_iff_or_not.mp hcond with h | h
        · exact absurd (of_decide_eq_true hr.1.1) h
        · have htok : pyStrip (i.headD []) = cl "tokens" := Decidable.not_not.mp h
          have hk : pyStrip (i.headD []) = k := eq_of_beq hr.1.2
          have : k ≠ cl "tokens" := bne_iff_ne.mp hr.2
          exact absurd (hk ▸ htok) this

lemma dictFind_foldl_preset (k : Str) :
    ∀ (lines : List Str) (d : List (Str × PVal)),
      (dictFind (List.foldl presetLineStep d lines) k).isSome = true ↔
        (dictFind d k).isSome = true ∨ ∃ line ∈ lines, presetLineSets line k = true := by
  intro lines
  induction lines with
  | nil => intro d; simp
  | cons line rest ih =>
    intro d
    rw [List.foldl_cons, ih, dictFind_presetLineStep]
    simp [or_assoc]

/-- C6 (amended): every `key=value` preset line updates the configuration,
recognized or not — an unrecognized key `k` has an entry in the resulting
configuration exactly when some line of the preset file assigns it (a
`'tokens'` line alone is ignored). -/
theorem preset_unknown_keys_added (clampTemp : PVal → PVal) (preset : Str) (k : Str)
    (hk : k ∉ knownPresetKeys) :
    (dictFind (load_preset_values clampTemp preset) k).isSome = true ↔
      ∃ line ∈ splitLines preset, presetLineSets line k = true := by
  have hkt : k ≠ cl "temperature" := fun h => hk (by rw [h]; decide)
  have hdef : dictFind presetDefaults k = none :=
    dictFind_eq_none_of_not_mem presetDefaults k hk
  simp only [load_preset_values]
  rw [dictFind_dictSet, if_neg hkt, dictFind_foldl_preset, hdef]
  simp

/-- C6 witness: the unrecognized key `bar` is present after loading a
preset containing the line `"bar = 3"`. -/
theorem preset_unknown_keys_added_witness :
    (cl "bar") ∉ knownPresetKeys ∧
    (dictFind (load_preset_values id (cl "bar = 3")) (cl "bar")).isSome = true :=
  ⟨by decide, (preset_unknown_keys_added id (cl "bar = 3") (cl "bar") (by decide)).mpr
    ⟨cl "bar = 3", by decide, by decide⟩⟩

/-- C6 counterexample: the claim says an unrecognized key leaves no entry
in the configuration, but loading a preset whose only line is `"foo=7"`
produces an entry for the unknown key `foo`. -/
theorem preset_unknown_keys_counterexample :
    (cl "foo") ∉ knownPresetKeys ∧
    dictFind (load_preset_values id (cl "foo=7")) (cl "foo") = some (cl "7") :=
  ⟨by decide, by decide⟩

lemma get?_isSome_iff (l : List Nat) (n : Nat) : (l.get? n).isSome = true ↔ n < l.length := by
  constructor
  · intro h
    by_contra hn
    rw [List.get?_eq_none.mpr (by omega)] at h
    simp at h
  · intro h
    rw [List.get?_eq_get h]
    simp

lemma pyListIndex_isSome (l : List Nat) (N : Nat) :
    (pyListIndex l ((N : Int) - 1)).isSome = true ↔ max N 1 ≤ l.length := by
  cases N with
  | zero =>
    rw [pyListIndex, if_neg (by omega)]
    have hc : (((0 : Nat) : Int) - 1).natAbs = 1 := by simp
    rw [hc]
    by_cases h : 1 ≤ l.length
    · rw [if_pos h, get?_isSome_iff]
      omega
    · rw [if_neg h]
      simp only [Option.isSome_none, Bool.false_eq_true, false_iff]
      omega
  | succ m =>
    rw [pyListIndex, if_pos (by omega)]
    have h1 : (((m + 1 : Nat) : Int) - 1).toNat = m := by omega
    rw [h1, get?_isSome_iff]
    omega

lemma extract_isSome_eq (ext : Str → Str) (question reply current other : Str)
    (check extensions : Bool) :
    (extract_message_from_reply ext question reply current other check extensions).isSome =
      (pyListIndex (findIter [current] reply)
        (((findIter [current] question).length : Int) - 1)).isSome := by
  rw [extract_message_from_reply]
  simp only [rawCandidate]
  cases h : pyListIndex (findIter [current] reply)
      (((findIter [current] question).length : Int) - 1) with
  | none => simp
  | some idx => cases check <;> simp

/-- C7 (amended): the occurrence-index lookup of reply extraction is in
bounds iff the transcript contains at least `max(N_prompt, 1)` occurrences
of the `(^|\n){current}:` marker, where `N_prompt` counts the prompt's own
occurrences.  Since every prompt occurrence persists in a transcript that
extends the prompt, extraction succeeds whenever the prompt itself
contains the marker — even when generation emits no new one; it fails only
when the transcript contains no occurrence at all (fewer than that bound),
and then the `IndexError` propagates uncaught (`none`). -/
theorem extract_lookup_in_bounds_iff (ext : Str → Str)
    (question reply current other : Str) (check extensions : Bool) :
    (extract_message_from_reply ext question reply current other check extensions).isSome
      = true ↔
      max (findIter [current] question).length 1 ≤ (findIter [current] reply).length := by
  rw [extract_isSome_eq, pyListIndex_isSome]

/-- C7 counterexample: the claim says the lookup fails when generation
never emits the expected speaker marker; here the transcript extends the
prompt without adding any `"\nBot:"` occurrence (both contain exactly
one), yet extraction succeeds. -/
theorem extract_lookup_counterexample :
    lstarts (cl "\nBot:") (cl "\nBot: hi there") = true ∧
    (findIter [cl "Bot"] (cl "\nBot:")).length = 1 ∧
    (findIter [cl "Bot"] (cl "\nBot: hi there")).length = 1 ∧
    (extract_message_from_reply id (cl "\nBot:") (cl "\nBot: hi there") (cl "Bot")
      (cl "You") false false).isSome = true :=
  ⟨by decide, by decide, by decide, by decide⟩

lemma trimRows_exit (tok : Str → Nat) (tokens limit : Nat) (hlimit : 2 ≤ limit) :
    ∀ fuel rows, rows.length ≤ 2 * fuel + limit →
      tok ((trimRows tok tokens limit fuel rows).flatten) < 2048 - tokens ∨
      (trimRows tok tokens limit fuel rows).length ≤ limit := by
  intro fuel
  induction fuel with
  | zero =>
    intro rows hb
    right
    simpa [trimRows] using hb
  | succ k ih =>
    intro rows hb
    rw [trimRows]
    by_cases hc : limit < rows.length ∧ 2048 - tokens ≤ encLen tok rows.flatten tokens
    · rw [if_pos hc]
      have e1 : (rows.eraseIdx 1).length = rows.length - 1 := by
        rw [List.length_eraseIdx]
        simp [show 1 < rows.length by omega]
      have e2 : ((rows.eraseIdx 1).eraseIdx 1).length = rows.length - 2 := by
        rw [List.length_eraseIdx, e1, if_pos (by omega)]
        omega
      apply ih
      omega
    · rw [if_neg hc]
      rcases Decidable.not_and_iff_or_not.mp hc with h | h
      · right
        omega
      · left
        by_contra hge
        apply h
        rw [encLen]
        rw [Nat.min_eq_right (by omega)]

/-- C1 (amended): the built chat prompt's tokenized length is strictly
below `2048 - tokens`, *unless* trimming has reduced the prompt to only
the mandatory rows (at most 3 rows — context header, pending user row and
bot prefix; 2 when impersonating), in which case the bound can fail: the
trimming loop never drops the context header or the pending rows. -/
theorem prompt_budget_amended (tok : Str → Nat) (ext : Str → Str) (text : Str)
    (tokens : Nat) (name1 name2 context : Str) (internalHist : List Turn)
    (history_size : Nat) (impersonate : Bool) :
    tok (generate_chat_prompt tok ext text tokens name1 name2 context internalHist
        history_size impersonate) < 2048 - tokens ∨
    (generate_chat_rows tok ext text tokens name1 name2 context internalHist
        history_size impersonate).length ≤ (if impersonate then 2 else 3) := by
  rw [generate_chat_prompt]
  simp only [generate_chat_rows]
  apply trimRows_exit
  · cases impersonate <;> simp
  · omega

/-- C1 counterexample: with the tokenizer modelled as one token per
character, a 15-token context header, empty history and budget
`B = 2040`, the built prompt has tokenized length 27, which is not below
`2048 - 2040 = 8`: the builder never trims the context header or the
pending rows, so the claimed budget invariant fails. -/
theorem prompt_budget_counterexample :
    ¬ ((generate_chat_prompt List.length id (cl "hi") 2040 (cl "You") (cl "Bot")
      (cl "Hello everyone") [] 0 false).length < 2048 - 2040) := by decide

lemma findIdx?_lt_length {p : Turn → Bool} {l : List Turn} {i : Nat}
    (h : l.findIdx? p = some i) : i < l.length :=
  (List.findIdx?_eq_some_iff_getElem.mp h).1

/-- C2 (amended): the turn-level operations — placeholder append,
streaming update of the last turn, regenerate pop, remove-last,
replace-last-reply, clearing with no character, clearing when no sentinel
anchor exists, and bulk replace from pasted dialogue — all preserve
`len(internal) = len(visible)`; but clearing to a sentinel anchor at index
`i` leaves `i + 1` internal turns against 1 visible turn, and character
load leaves `len(example turns) + 1` internal turns against 1 visible
turn, so parity is violated exactly when example dialogue precedes the
anchor. -/
theorem history_parity_amended :
    (∀ st : ChatState, parity st → parity (appendPlaceholder st)) ∧
    (∀ st st' ti tv, updateLastTurn st ti tv = some st' → parity st → parity st') ∧
    (∀ st st', popLastTurn st = some st' → parity st → parity st') ∧
    (∀ st st' t, remove_last_message st = some (st', t) → parity st → parity st') ∧
    (∀ st st' x y, replace_last_reply st x y = some st' → parity st → parity st') ∧
    (∀ st : ChatState, parity (clear_chat_log false st)) ∧
    (∀ st : ChatState, st.internal.findIdx? (fun t => pyContains t.1 sentinelS) = none →
      clear_chat_log true st = st) ∧
    (∀ (st : ChatState) i,
      st.internal.findIdx? (fun t => pyContains t.1 sentinelS) = some i →
      (clear_chat_log true st).internal.length = i + 1 ∧
      (clear_chat_log true st).visible.length = 1) ∧
    (∀ n1 n2 f, parity (load_pasted_history n1 n2 f)) ∧
    (∀ extOut n1 n2 ex gr,
      (load_character_history extOut n1 n2 ex gr).internal.length =
        (tokenize_dialogue n1 n2 ex).length + 1 ∧
      (load_character_history extOut n1 n2 ex gr).visible.length = 1) := by
  refine ⟨?_, ?_, ?_, ?_, ?_, ?_, ?_, ?_, ?_, ?_⟩
  · intro st hp
    simp only [parity, appendPlaceholder, List.length_append] at hp ⊢
    omega
  · intro st st' ti tv h hp
    rw [updateLastTurn] at h
    by_cases hg : st.internal = [] ∨ st.visible = []
    · rw [if_pos hg] at h
      exact absurd h (by simp)
    · rw [if_neg hg] at h
      push_neg at hg
      have h1 : 1 ≤ st.internal.length := List.length_pos.mpr hg.1
      have h2 : 1 ≤ st.visible.length := List.length_pos.mpr hg.2
      cases h
      simp only [parity, List.length_append, List.length_dropLast,
        List.length_singleton] at hp ⊢
      omega
  · intro st st' h hp
    rw [popLastTurn] at h
    by_cases hg : st.visible = [] ∨ st.internal = []
    · rw [if_pos hg] at h
      exact absurd h (by simp)
    · rw [if_neg hg] at h
      cases h
      simp only [parity, List.length_dropLast] at hp ⊢
      omega
  · intro st st' t h hp
    cases hti : st.internal.getLast? with
    | none => simp [remove_last_message, hti] at h
    | some lt =>
      by_cases hsent : lt.1 = sentinelS
      · simp [remove_last_message, hti, hsent] at h
        rw [← h.1]
        exact hp
      · cases htv : st.visible.getLast? with
        | none => simp [remove_last_message, hti, hsent, htv] at h
        | some v =>
          simp [remove_last_message, hti, hsent, htv] at h
          rw [← h.1]
          simp only [parity, List.length_dropLast] at hp ⊢
          omega
  · intro st st' x y h hp
    rw [replace_last_reply] at h
    by_cases hv : st.visible = []
    · rw [if_pos hv] at h
      cases h
      exact hp
    · rw [if_neg hv] at h
      by_cases hi : st.internal = []
      · rw [if_pos hi] at h
        exact absurd h (by simp)
      · rw [if_neg hi] at h
        have h1 : 1 ≤ st.internal.length := List.length_pos.mpr hi
        have h2 : 1 ≤ st.visible.length := List.length_pos.mpr hv
        cases h
        simp only [parity, List.length_append, List.length_dropLast,
          List.length_singleton] at hp ⊢
        omega
  · intro st
    simp [clear_chat_log, parity]
  · intro st h
    simp [clear_chat_log, h]
  · intro st i h
    have hlt : i < st.internal.length := findIdx?_lt_length h
    simp only [clear_chat_log, if_pos, h]
    constructor
    · simp only [List.length_take]
      omega
    · simp
  · intro n1 n2 f
    simp [load_pasted_history, parity]
  · intro extOut n1 n2 ex gr
    cases gr with
    | none => simp [load_character_history]
    | some g => simp [load_character_history]

/-- C2 counterexample: loading a character whose example dialogue parses
to one turn leaves 2 internal turns against 1 visible turn — the parity
invariant `len(internal) == len(visible)` fails right after character
load. -/
theorem history_parity_counterexample :
    ¬ parity (load_character_history id (cl "You") (cl "Bot")
      (cl "You: hi\nBot: hello\n") (some (cl "Hi!"))) := by
  unfold parity
  decide

/-- C2 witness: the turn-level operations do preserve parity on a concrete
state — appending the placeholder turn keeps the lengths equal. -/
theorem history_parity_witness :
    parity (appendPlaceholder ⟨[(cl "a", cl "b")], [(cl "a", cl "b")]⟩) :=
  history_parity_amended.1 ⟨[(cl "a", cl "b")], [(cl "a", cl "b")]⟩ rfl

/-! ### Library: the `finditer` scanner on built transcripts -/

lemma tryPats_pos {pats : List Str} {l : Str} {k : Nat}
    (h : tryPats pats l = some k) : 1 ≤ k := by
  induction pats with
  | nil => simp [tryPats] at h
  | cons p ps ih =>
    rw [tryPats] at h
    by_cases hp : lstarts (p ++ [':']) l
    · rw [if_pos hp] at h
      cases h
      omega
    · rw [if_neg hp] at h
      exact ih h

lemma tryPats_nil (pats : List Str) : tryPats pats [] = none := by
  induction pats with
  | nil => rfl
  | cons p ps ih =>
    rw [tryPats]
    have hl : lstarts (p ++ [':']) [] = false := by
      cases p <;> rfl
    rw [if_neg (by simp [hl])]
    exact ih

lemma findIterAux_nil (pats : List Str) (fuel : Nat) (b : Bool) :
    findIterAux pats fuel b [] = [] := by
  cases fuel <;> rfl

lemma findIterAux_fuel (pats : List Str) :
    ∀ (fuel : Nat) (l : Str) (b : Bool) (fuel' : Nat), l.length ≤ fuel →
      l.length ≤ fuel' → findIterAux pats fuel b l = findIterAux pats fuel' b l := by
  intro fuel
  induction fuel with
  | zero =>
    intro l b fuel' h h'
    have : l = [] := List.length_eq_zero.mp (by omega)
    rw [this, findIterAux_nil, findIterAux_nil]
  | succ f ih =>
    intro l b fuel' h h'
    cases l with
    | nil => rw [findIterAux_nil, findIterAux_nil]
    | cons c rest =>
      cases fuel' with
      | zero => simp at h'
      | succ g =>
        rw [findIterAux, findIterAux]
        simp only [List.length_cons] at h h'
        cases hb : (if b then tryPats pats (c :: rest) else none) with
        | some k =>
          have hk := tryPats_pos (show tryPats pats (c :: rest) = some k by
            cases b <;> simp_all)
          simp only [ih ((c :: rest).drop k) false g (by simp; omega) (by simp; omega)]
        | none =>
          by_cases hc : c = '\n'
          · simp only [if_pos hc]
            cases hk : tryPats pats rest with
            | some k =>
              simp only [ih (rest.drop k) false g (by simp; omega) (by simp; omega)]
            | none =>
              simp only [ih rest false g (by omega) (by omega)]
          · simp only [if_neg hc, ih rest false g (by omega) (by omega)]

lemma lstarts_append_self : ∀ (p w : Str), lstarts p (p ++ w) = true := by
  intro p
  induction p with
  | nil => intro w; rfl
  | cons c t ih => intro w; simp [lstarts, ih w]

lemma not_lstarts_of_ne : ∀ (n1 n2 z : Str), (':' ∉ n1) → (':' ∉ n2) → n1 ≠ n2 →
    lstarts (n1 ++ [':']) (n2 ++ ':' :: z) = false := by
  intro n1
  induction n1 with
  | nil =>
    intro n2 z h1 h2 hne
    cases n2 with
    | nil => exact absurd rfl hne
    | cons c t =>
      have hc : ¬ (':' = c) := fun h => h2 (h ▸ List.mem_cons_self c t)
      simp [lstarts, hc]
  | cons a t1 ih =>
    intro n2 z h1 h2 hne
    have ha : a ≠ ':' := fun h => h1 (h ▸ List.mem_cons_self a t1)
    cases n2 with
    | nil => simp [lstarts, ha]
    | cons b t2 =>
      by_cases hab : a = b
      · subst hab
        have ht : t1 ≠ t2 := fun h => hne (h ▸ rfl)
        simp [lstarts,
          ih t2 z (fun h => h1 (List.mem_cons_of_mem a h))
            (fun h => h2 (List.mem_cons_of_mem a h)) ht]
      · simp [lstarts, hab]

lemma lstarts_label_self (n z : Str) : lstarts (n ++ [':']) (n ++ ':' :: z) = true := by
  rw [show n ++ ':' :: z = (n ++ [':']) ++ z by simp]
  exact lstarts_append_self (n ++ [':']) z

lemma tryPats_fst (n1 n2 z : Str) :
    tryPats [n1, n2] (n1 ++ ':' :: z) = some (n1.length + 1) := by
  rw [tryPats, if_pos (lstarts_label_self n1 z)]

lemma tryPats_snd (n1 n2 z : Str) (h1 : ':' ∉ n1) (h2 : ':' ∉ n2) (hne : n1 ≠ n2) :
    tryPats [n1, n2] (n2 ++ ':' :: z) = some (n2.length + 1) := by
  rw [tryPats, if_neg (by simp [not_lstarts_of_ne n1 n2 z h1 h2 hne]), tryPats,
    if_pos (lstarts_label_self n2 z)]

lemma drop_label (n r : Str) : (n ++ ':' :: r).drop (n.length + 1) = r := by
  have h : (n ++ [':']).length = n.length + 1 := by simp
  rw [show n ++ ':' :: r = (n ++ [':']) ++ r by simp, ← h, List.drop_left]

lemma findIterAux_skip (pats : List Str) :
    ∀ (t u : Str), (∀ c ∈ t, c ≠ '\n') →
      findIterAux pats (t ++ u).length false (t ++ u) =
        (findIterAux pats u.length false u).map (· + t.length) := by
  intro t
  induction t with
  | nil =>
    intro u h
    simp
  | cons c t ih =>
    intro u h
    have hc : c ≠ '\n' := h c (List.mem_cons_self c t)
    rw [show (c :: t) ++ u = c :: (t ++ u) from rfl, List.length_cons, findIterAux]
    simp only [Bool.false_eq_true, if_false, if_neg hc]
    rw [ih u (fun x hx => h x (List.mem_cons_of_mem c hx))]
    simp [List.map_map, Function.comp]

lemma findIterAux_nl (pats : List Str) (u : Str) (k : Nat)
    (hk : tryPats pats u = some k) :
    findIterAux pats ('\n' :: u).length false ('\n' :: u) =
      0 :: (findIterAux pats (u.drop k).length false (u.drop k)).map (· + (1 + k)) := by
  rw [List.length_cons, findIterAux]
  simp only [Bool.false_eq_true, if_false, if_pos rfl, hk, if_true]
  rw [findIterAux_fuel pats u.length (u.drop k) false (u.drop k).length
    (by simp) (le_refl _)]

lemma findIterAux_top (pats : List Str) (c : Char) (rest : Str) (k : Nat)
    (hk : tryPats pats (c :: rest) = some k) :
    findIterAux pats (c :: rest).length true (c :: rest) =
      0 :: (findIterAux pats ((c :: rest).drop k).length false
        ((c :: rest).drop k)).map (· + k) := by
  rw [List.length_cons, findIterAux]
  simp only [if_true, hk]
  rw [findIterAux_fuel pats rest.length ((c :: rest).drop k) false
    ((c :: rest).drop k).length (by simp; have := tryPats_pos hk; omega) (le_refl _)]

lemma rowT_append (n1 n2 : Str) (t : Turn) (w : Str) :
    rowT n1 n2 t ++ w =
      n1 ++ ':' :: ' ' :: (t.1 ++ '\n' :: (n2 ++ ':' :: (' ' :: (t.2 ++ '\n' :: w)))) := by
  simp [rowT]

lemma scan_master (n1 n2 : Str) (h1 : ':' ∉ n1) (h2 : ':' ∉ n2) (hne : n1 ≠ n2) :
    ∀ ts : List Turn, (∀ t ∈ ts, ('\n' ∉ t.1) ∧ ('\n' ∉ t.2)) →
      findIterAux [n1, n2] ('\n' :: (ts.map (rowT n1 n2)).flatten).length false
        ('\n' :: (ts.map (rowT n1 n2)).flatten) = exIdx n1 n2 ts := by
  intro ts
  induction ts with
  | nil =>
    intro _
    simp [findIterAux, tryPats_nil, findIterAux_nil, exIdx]
  | cons t ts ih =>
    intro hT
    have ht := hT t (List.mem_cons_self t ts)
    have hts : ∀ x ∈ ts, ('\n' ∉ x.1) ∧ ('\n' ∉ x.2) :=
      fun x hx => hT x (List.mem_cons_of_mem t hx)
    have hs1 : ∀ c ∈ ' ' :: t.1, c ≠ '\n' := by
      intro c hc
      rcases List.mem_cons.mp hc with h | h
      · rw [h]; decide
      · exact fun he => ht.1 (he ▸ h)
    have hs2 : ∀ c ∈ ' ' :: t.2, c ≠ '\n' := by
      intro c hc
      rcases List.mem_cons.mp hc with h | h
      · rw [h]; decide
      · exact fun he => ht.2 (he ▸ h)
    rw [List.map_cons, List.flatten_cons, rowT_append]
    rw [findIterAux_nl [n1, n2]
      (n1 ++ ':' :: ' ' :: (t.1 ++ '\n' :: (n2 ++ ':' :: (' ' :: (t.2 ++ '\n' ::
        (ts.map (rowT n1 n2)).flatten)))))
      (n1.length + 1) (tryPats_fst n1 n2 _)]
    rw [drop_label n1]
    rw [show ' ' :: (t.1 ++ '\n' :: (n2 ++ ':' :: (' ' :: (t.2 ++ '\n' ::
        (ts.map (rowT n1 n2)).flatten)))) =
      (' ' :: t.1) ++ ('\n' :: (n2 ++ ':' :: (' ' :: (t.2 ++ '\n' ::
        (ts.map (rowT n1 n2)).flatten)))) from rfl]
    rw [findIterAux_skip [n1, n2] (' ' :: t.1) _ hs1]
    rw [findIterAux_nl [n1, n2]
      (n2 ++ ':' :: (' ' :: (t.2 ++ '\n' :: (ts.map (rowT n1 n2)).flatten)))
      (n2.length + 1) (tryPats_snd n1 n2 _ h1 h2 hne)]
    rw [drop_label n2]
    rw [show ' ' :: (t.2 ++ '\n' :: (ts.map (rowT n1 n2)).flatten) =
      (' ' :: t.2) ++ ('\n' :: (ts.map (rowT n1 n2)).flatten) from rfl]
    rw [findIterAux_skip [n1, n2] (' ' :: t.2) _ hs2]
    rw [ih hts, exIdx]
    simp only [List.map_cons, List.map_map, List.length_cons]
    congr 1
    congr 1
    · omega
    congr 1
    funext x
    simp only [Function.comp_apply]
    omega

lemma findIterAux_top2 (pats : List Str) (l : Str) (k : Nat)
    (hk : tryPats pats l = some k) (hl : l ≠ []) :
    findIterAux pats l.length true l =
      0 :: (findIterAux pats (l.drop k).length false (l.drop k)).map (· + k) := by
  cases l with
  | nil => exact absurd rfl hl
  | cons c rest => exact findIterAux_top pats c rest k hk

lemma scan_top (n1 n2 : Str) (h1 : ':' ∉ n1) (h2 : ':' ∉ n2) (hne : n1 ≠ n2)
    (t : Turn) (ts : List Turn)
    (hT : ∀ x ∈ t :: ts, ('\n' ∉ x.1) ∧ ('\n' ∉ x.2)) :
    findIter [n1, n2] (((t :: ts).map (rowT n1 n2)).flatten) =
      0 :: (n1.length + t.1.length + 2) ::
        (exIdx n1 n2 ts).map
          (· + (n1.length + t.1.length + n2.length + t.2.length + 5)) := by
  have ht := hT t (List.mem_cons_self t ts)
  have hts : ∀ x ∈ ts, ('\n' ∉ x.1) ∧ ('\n' ∉ x.2) :=
    fun x hx => hT x (List.mem_cons_of_mem t hx)
  have hs1 : ∀ c ∈ ' ' :: t.1, c ≠ '\n' := by
    intro c hc
    rcases List.mem_cons.mp hc with h | h
    · rw [h]; decide
    · exact fun he => ht.1 (he ▸ h)
  have hs2 : ∀ c ∈ ' ' :: t.2, c ≠ '\n' := by
    intro c hc
    rcases List.mem_cons.mp hc with h | h
    · rw [h]; decide
    · exact fun he => ht.2 (he ▸ h)
  rw [findIter, List.map_cons, List.flatten_cons, rowT_append]
  rw [findIterAux_top2 [n1, n2]
    (n1 ++ ':' :: ' ' :: (t.1 ++ '\n' :: (n2 ++ ':' :: (' ' :: (t.2 ++ '\n' ::
      (ts.map (rowT n1 n2)).flatten)))))
    (n1.length + 1) (tryPats_fst n1 n2 _) (by simp)]
  rw [drop_label n1]
  rw [show ' ' :: (t.1 ++ '\n' :: (n2 ++ ':' :: (' ' :: (t.2 ++ '\n' ::
      (ts.map (rowT n1 n2)).flatten)))) =
    (' ' :: t.1) ++ ('\n' :: (n2 ++ ':' :: (' ' :: (t.2 ++ '\n' ::
      (ts.map (rowT n1 n2)).flatten)))) from rfl]
  rw [findIterAux_skip [n1, n2] (' ' :: t.1) _ hs1]
  rw [findIterAux_nl [n1, n2]
    (n2 ++ ':' :: (' ' :: (t.2 ++ '\n' :: (ts.map (rowT n1 n2)).flatten)))
    (n2.length + 1) (tryPats_snd n1 n2 _ h1 h2 hne)]
  rw [drop_label n2]
  rw [show ' ' :: (t.2 ++ '\n' :: (ts.map (rowT n1 n2)).flatten) =
    (' ' :: t.2) ++ ('\n' :: (ts.map (rowT n1 n2)).flatten) from rfl]
  rw [findIterAux_skip [n1, n2] (' ' :: t.2) _ hs2]
  rw [scan_master n1 n2 h1 h2 hne ts hts]
  simp only [List.map_cons, List.map_map, List.length_cons]
  congr 1
  congr 1
  · omega
  congr 1
  funext x
  simp only [Function.comp_apply]
  omega

lemma pyStrip_cons_ws {c : Char} (w : Str) (h : isWS c = true) :
    pyStrip (c :: w) = pyStrip w := by
  unfold pyStrip
  rw [stripL_cons_of_ws _ h]

lemma stripR_append_ws {c : Char} (w : Str) (h : isWS c = true) :
    stripR (w ++ [c]) = stripR w := by
  unfold stripR
  rw [List.reverse_append]
  simp [List.dropWhile_cons, h]

lemma pyStrip_append_ws {c : Char} (w : Str) (h : isWS c = true) :
    pyStrip (w ++ [c]) = pyStrip w := by
  have e1 : pyStrip (w ++ [c]) = stripL (stripR (w ++ [c])) := (strip_comm _).symm
  rw [e1, stripR_append_ws _ h, strip_comm]
  rfl

lemma slicesAux_shift : ∀ (rest : List Nat) (u s : Str) (a : Nat),
    slicesAux (u ++ s) (u.length + a) (rest.map (· + u.length)) = slicesAux s a rest := by
  intro rest
  induction rest with
  | nil =>
    intro u s a
    rw [List.map_nil, slicesAux, slicesAux, List.drop_append]
  | cons b r ih =>
    intro u s a
    rw [List.map_cons, slicesAux, slicesAux]
    congr 1
    · rw [List.drop_append, show b + u.length - (u.length + a) = b - a by omega]
    · rw [show b + u.length = u.length + b by omega]
      exact ih u s b

lemma msgs_master (n1 n2 : Str) :
    ∀ ts : List Turn,
      pymessages ('\n' :: (ts.map (rowT n1 n2)).flatten) (exIdx n1 n2 ts) =
        msgsOf n1 n2 ts := by
  intro ts
  induction ts with
  | nil => rfl
  | cons t ts ih =>
    have hs : '\n' :: ((t :: ts).map (rowT n1 n2)).flatten =
        ('\n' :: (n1 ++ ':' :: ' ' :: t.1)) ++
          (('\n' :: (n2 ++ ':' :: ' ' :: t.2)) ++
            ('\n' :: (ts.map (rowT n1 n2)).flatten)) := by
      simp [rowT]
    have hm : n1.length + t.1.length + 3 = ('\n' :: (n1 ++ ':' :: ' ' :: t.1)).length := by
      simp
      omega
    rw [exIdx]
    simp only [pymessages]
    rw [slicesAux]
    simp only [List.drop_zero, Nat.sub_zero]
    rw [hs, hm, List.take_left]
    rw [pyStrip_cons_ws _ (by decide)]
    rw [msgsOf]
    congr 1
    cases ts with
    | nil =>
      simp only [exIdx, List.map_nil, slicesAux, List.flatten_nil]
      rw [List.drop_left]
      rw [pyStrip_append_ws _ (by decide)]
      rw [pyStrip_cons_ws _ (by decide)]
      rfl
    | cons t2 ts2 =>
      obtain ⟨tail, htail⟩ : ∃ tail, exIdx n1 n2 (t2 :: ts2) = 0 :: tail :=
        ⟨_, by rw [exIdx]⟩
      rw [htail]
      rw [show List.map (· + (n1.length + t.1.length + n2.length + t.2.length + 6))
          (0 :: tail) =
        (n1.length + t.1.length + n2.length + t.2.length + 6) ::
          List.map (· + (n1.length + t.1.length + n2.length + t.2.length + 6)) tail
        from by simp]
      rw [slicesAux]
      congr 1
      · rw [List.drop_left]
        rw [show n1.length + t.1.length + n2.length + t.2.length + 6 -
            ('\n' :: (n1 ++ ':' :: ' ' :: t.1)).length =
          ('\n' :: (n2 ++ ':' :: ' ' :: t.2)).length from by simp; omega]
        rw [List.take_left]
        rw [pyStrip_cons_ws _ (by decide)]
      · have hshift := slicesAux_shift tail
          (('\n' :: (n1 ++ ':' :: ' ' :: t.1)) ++ ('\n' :: (n2 ++ ':' :: ' ' :: t.2)))
          ('\n' :: ((t2 :: ts2).map (rowT n1 n2)).flatten) 0
        rw [add_zero, List.append_assoc] at hshift
        have hlen : (('\n' :: (n1 ++ ':' :: ' ' :: t.1)) ++
            ('\n' :: (n2 ++ ':' :: ' ' :: t.2))).length =
            n1.length + t.1.length + n2.length + t.2.length + 6 := by
          simp
          omega
        rw [hlen] at hshift
        rw [hshift]
        have hpm : pymessages ('\n' :: ((t2 :: ts2).map (rowT n1 n2)).flatten)
            (exIdx n1 n2 (t2 :: ts2)) =
            slicesAux ('\n' :: ((t2 :: ts2).map (rowT n1 n2)).flatten) 0 tail := by
          rw [htail]
          rfl
        rw [← hpm, ih]

lemma msgs_top (n1 n2 : Str) (t : Turn) (ts : List Turn) :
    pymessages (((t :: ts).map (rowT n1 n2)).flatten)
      (0 :: (n1.length + t.1.length + 2) ::
        (exIdx n1 n2 ts).map
          (· + (n1.length + t.1.length + n2.length + t.2.length + 5))) =
      msgsOf n1 n2 (t :: ts) := by
  have hs : ((t :: ts).map (rowT n1 n2)).flatten =
      (n1 ++ ':' :: ' ' :: t.1) ++
        (('\n' :: (n2 ++ ':' :: ' ' :: t.2)) ++
          ('\n' :: (ts.map (rowT n1 n2)).flatten)) := by
    simp [rowT]
  have hm : n1.length + t.1.length + 2 = (n1 ++ ':' :: ' ' :: t.1).length := by
    simp
    omega
  simp only [pymessages]
  rw [slicesAux]
  simp only [List.drop_zero, Nat.sub_zero]
  rw [hs, hm, List.take_left]
  rw [msgsOf]
  congr 1
  cases ts with
  | nil =>
    simp only [exIdx, List.map_nil, slicesAux, List.flatten_nil]
    rw [List.drop_left]
    rw [pyStrip_append_ws _ (by decide)]
    rw [pyStrip_cons_ws _ (by decide)]
    rfl
  | cons t2 ts2 =>
    obtain ⟨tail, htail⟩ : ∃ tail, exIdx n1 n2 (t2 :: ts2) = 0 :: tail :=
      ⟨_, by rw [exIdx]⟩
    rw [htail]
    rw [show List.map (· + (n1.length + t.1.length + n2.length + t.2.length + 5))
        (0 :: tail) =
      (n1.length + t.1.length + n2.length + t.2.length + 5) ::
        List.map (· + (n1.length + t.1.length + n2.length + t.2.length + 5)) tail
      from by simp]
    rw [slicesAux]
    congr 1
    · rw [List.drop_left]
      rw [show n1.length + t.1.length + n2.length + t.2.length + 5 -
          (n1 ++ ':' :: ' ' :: t.1).length =
        ('\n' :: (n2 ++ ':' :: ' ' :: t.2)).length from by simp; omega]
      rw [List.take_left]
      rw [pyStrip_cons_ws _ (by decide)]
    · have hshift := slicesAux_shift tail
        ((n1 ++ ':' :: ' ' :: t.1) ++ ('\n' :: (n2 ++ ':' :: ' ' :: t.2)))
        ('\n' :: ((t2 :: ts2).map (rowT n1 n2)).flatten) 0
      rw [add_zero, List.append_assoc] at hshift
      have hlen : ((n1 ++ ':' :: ' ' :: t.1) ++
          ('\n' :: (n2 ++ ':' :: ' ' :: t.2))).length =
          n1.length + t.1.length + n2.length + t.2.length + 5 := by
        simp
        omega
      rw [hlen] at hshift
      rw [hshift]
      have hpm : pymessages ('\n' :: ((t2 :: ts2).map (rowT n1 n2)).flatten)
          (exIdx n1 n2 (t2 :: ts2)) =
          slicesAux ('\n' :: ((t2 :: ts2).map (rowT n1 n2)).flatten) 0 tail := by
        rw [htail]
        rfl
      rw [← hpm, msgs_master n1 n2 (t2 :: ts2)]

lemma stripR_append (a b : Str) :
    stripR (a ++ b) = if stripR b = [] then stripR a else a ++ stripR b := by
  unfold stripR
  rw [List.reverse_append, List.dropWhile_append]
  by_cases hb : (List.dropWhile isWS b.reverse).isEmpty
  · have hbn : List.dropWhile isWS b.reverse = [] := by
      simpa [List.isEmpty_iff] using hb
    rw [if_pos hb, if_pos (by simp [hbn])]
  · have hbn : List.dropWhile isWS b.reverse ≠ [] := by
      simpa [List.isEmpty_iff] using hb
    rw [if_neg hb, if_neg (by simp [hbn])]
    simp

lemma msg_structure (n x : Str) (hg : goodName n) :
    pyStrip (n ++ ':' :: ' ' :: x) = (n ++ [':']) ++ stripR (' ' :: x) := by
  obtain ⟨hne, hchars⟩ := hg
  cases n with
  | nil => exact absurd rfl hne
  | cons c t =>
    have hc : isWS c = false := (hchars c (List.mem_cons_self c t)).1
    unfold pyStrip
    rw [show (c :: t) ++ ':' :: ' ' :: x = c :: (t ++ ':' :: ' ' :: x) from rfl]
    rw [stripL_cons_of_not_ws _ hc]
    rw [show c :: (t ++ ':' :: ' ' :: x) = ((c :: t) ++ [':']) ++ (' ' :: x) from by simp]
    rw [stripR_append]
    by_cases hnil : stripR (' ' :: x) = []
    · rw [if_pos hnil, hnil, List.append_nil]
      rw [stripR_append, if_neg (by decide), show stripR [':'] = [':'] from by decide]
    · rw [if_neg hnil]

lemma msg_label (n x : Str) (hg : goodName n) :
    lstarts (n ++ [':']) (pyStrip (n ++ ':' :: ' ' :: x)) = true := by
  rw [msg_structure n x hg]
  exact lstarts_append_self _ _

lemma msg_label_other (n m x : Str) (hg : goodName n) (hm : ':' ∉ m) (hn : ':' ∉ n)
    (hne : m ≠ n) :
    lstarts (m ++ [':']) (pyStrip (n ++ ':' :: ' ' :: x)) = false := by
  rw [msg_structure n x hg]
  rw [show (n ++ [':']) ++ stripR (' ' :: x) = n ++ ':' :: stripR (' ' :: x) from by simp]
  exact not_lstarts_of_ne m n _ hm hn hne

lemma msg_drop (n x : Str) (hg : goodName n) :
    pyStrip ((pyStrip (n ++ ':' :: ' ' :: x)).drop (n.length + 1)) = pyStrip x := by
  rw [msg_structure n x hg]
  rw [show n.length + 1 = (n ++ [':']).length from by simp, List.drop_left]
  by_cases hnil : stripR (' ' :: x) = []
  · have hall : ∀ c ∈ ' ' :: x, isWS c := stripR_eq_nil_iff.mp hnil
    have hx : stripL x = [] :=
      stripL_eq_nil_iff.mpr (fun c hc => hall c (List.mem_cons_of_mem _ hc))
    rw [hnil]
    simp [pyStrip, hx, stripR, stripL]
    intro y hy
    have he : List.dropWhile isWS x = [] := hx
    rw [he] at hy
    simp at hy
  · have hx : stripR x ≠ [] := by
      intro h
      apply hnil
      rw [stripR_cons_of_ws _ (by decide), if_pos h]
    rw [stripR_cons_of_ws _ (by decide), if_neg hx]
    rw [pyStrip_cons_ws _ (by decide)]
    rw [pyStrip, strip_comm x, stripR_idem]
    rfl

lemma pairUp_msgsOf (n1 n2 : Str) (hg1 : goodName n1) (hg2 : goodName n2)
    (hne : n1 ≠ n2) :
    ∀ ts : List Turn, (∀ t ∈ ts, ¬(pyStrip t.1 = [] ∧ pyStrip t.2 = [])) →
      pairUp n1 n2 ([], []) (msgsOf n1 n2 ts) =
        ts.map (fun t => (pyStrip t.1, pyStrip t.2)) := by
  have hc1 : ':' ∉ n1 := fun h => ((hg1.2 ':' h).2) rfl
  have hc2 : ':' ∉ n2 := fun h => ((hg2.2 ':' h).2) rfl
  intro ts
  induction ts with
  | nil => intro _; rfl
  | cons t ts ih =>
    intro hT
    rw [msgsOf, pairUp]
    rw [if_pos (msg_label n1 t.1 hg1)]
    rw [msg_drop n1 t.1 hg1]
    rw [pairUp]
    rw [if_neg (by rw [msg_label_other n2 n1 t.2 hg2 hc1 hc2 hne]; exact
      Bool.false_ne_true)]
    rw [if_pos (msg_label n2 t.2 hg2)]
    rw [msg_drop n2 t.2 hg2]
    rw [if_neg (hT t (List.mem_cons_self t ts))]
    rw [ih (fun x hx => hT x (List.mem_cons_of_mem t hx)), List.map_cons]

lemma map_strip_id (ts : List Turn)
    (h : ∀ t ∈ ts, pyStrip t.1 = t.1 ∧ pyStrip t.2 = t.2) :
    ts.map (fun t => (pyStrip t.1, pyStrip t.2)) = ts := by
  induction ts with
  | nil => rfl
  | cons t ts ih =>
    rw [List.map_cons, ih (fun x hx => h x (List.mem_cons_of_mem t hx))]
    have ht := h t (List.mem_cons_self t ts)
    rw [ht.1, ht.2]

/-- C8: tokenize-dialogue round trip.  For a pasted transcript built of
strictly alternating `"{name1}: X"` / `"{name2}: Y"` lines (names
non-empty, whitespace- and colon-free, distinct; message bodies
newline-free; no pair with both sides blank; transcript untouched by the
`<START>`/`Anon:`/`[CHARACTER]:` rewrites), `tokenize_dialogue` recovers
exactly the turn list with each side stripped — so reconstructing
`"{name1}: {turn.user}\n{name2}: {turn.bot}\n"` reproduces the original
speaker attribution of every message, and reproduces the transcript
verbatim when the bodies carry no outer whitespace. -/
theorem tokenize_dialogue_round_trip (n1 n2 : Str) (ts : List Turn)
    (hg1 : goodName n1) (hg2 : goodName n2) (hne : n1 ≠ n2)
    (hnl : ∀ t ∈ ts, ('\n' ∉ t.1) ∧ ('\n' ∉ t.2))
    (hno : ∀ t ∈ ts, ¬(pyStrip t.1 = [] ∧ pyStrip t.2 = []))
    (hsubs : applyDialogueSubs n2 (buildTranscript n1 n2 ts) =
      buildTranscript n1 n2 ts) :
    tokenize_dialogue n1 n2 (buildTranscript n1 n2 ts) =
      ts.map (fun t => (pyStrip t.1, pyStrip t.2)) ∧
    ((∀ t ∈ ts, pyStrip t.1 = t.1 ∧ pyStrip t.2 = t.2) →
      buildTranscript n1 n2 (tokenize_dialogue n1 n2 (buildTranscript n1 n2 ts)) =
        buildTranscript n1 n2 ts) := by
  have hc1 : ':' ∉ n1 := fun h => ((hg1.2 ':' h).2) rfl
  have hc2 : ':' ∉ n2 := fun h => ((hg2.2 ':' h).2) rfl
  have hbuild : buildTranscript n1 n2 ts = (ts.map (rowT n1 n2)).flatten := rfl
  have h1 : tokenize_dialogue n1 n2 (buildTranscript n1 n2 ts) =
      ts.map (fun t => (pyStrip t.1, pyStrip t.2)) := by
    simp only [tokenize_dialogue]
    rw [hsubs, hbuild]
    cases ts with
    | nil =>
      rw [show ((List.map (rowT n1 n2) []).flatten) = ([] : Str) from rfl]
      rw [show findIter [n1, n2] [] = [] from rfl]
      simp
    | cons t ts2 =>
      rw [scan_top n1 n2 hc1 hc2 hne t ts2 hnl]
      rw [if_neg (by simp)]
      rw [msgs_top n1 n2 t ts2]
      exact pairUp_msgsOf n1 n2 hg1 hg2 hne (t :: ts2) hno
  refine ⟨h1, fun hstrip => ?_⟩
  rw [h1, map_strip_id ts hstrip]

/-- C8 witness: a concrete two-turn alternating transcript round-trips
through `tokenize_dialogue` and reconstruction. -/
theorem tokenize_dialogue_round_trip_witness :
    tokenize_dialogue (cl "You") (cl "Bot")
      (buildTranscript (cl "You") (cl "Bot")
        [(cl "Hi", cl "Hello"), (cl "How are you?", cl "Good.")]) =
      [(cl "Hi", cl "Hello"), (cl "How are you?", cl "Good.")] ∧
    buildTranscript (cl "You") (cl "Bot")
      (tokenize_dialogue (cl "You") (cl "Bot")
        (buildTranscript (cl "You") (cl "Bot")
          [(cl "Hi", cl "Hello"), (cl "How are you?", cl "Good.")])) =
      buildTranscript (cl "You") (cl "Bot")
        [(cl "Hi", cl "Hello"), (cl "How are you?", cl "Good.")] := by
  have h := tokenize_dialogue_round_trip (cl "You") (cl "Bot")
    [(cl "Hi", cl "Hello"), (cl "How are you?", cl "Good.")]
    (by decide) (by decide) (by decide) (by decide) (by decide) (by decide)
  refine ⟨?_, h.2 (by decide)⟩
  rw [h.1]
  decide
